import Mathlib

open MeasureTheory Set

/-
Verification of the statistical procedures in the A/B-testing notebook
`Hypothesis_test_review_and_power.ipynb`: the proportion estimator, the
simulation-based and analytic two-proportion significance tests, and the
sample-size (power) calculator.  The normal CDF used by the analytic test and
the quantile function used by the power calculator are defined from the Gaussian
integral, and their numeric values are bounded through alternating partial sums
of the Taylor series of `exp`.
-/

set_option maxRecDepth 8000

/-- The unnormalised standard normal density `exp (-t²/2)`. -/
noncomputable def gaussPDF (t : ℝ) : ℝ := Real.exp (-t ^ 2 / 2)

/-- Partial sum (first `n` terms) of the Taylor series of `exp (-u)`. -/
noncomputable def expP (n : ℕ) (u : ℝ) : ℝ :=
  ∑ k ∈ Finset.range n, (-1) ^ k * u ^ k / (k.factorial : ℝ)

/-- Partial sum of the series of the antiderivative `∫_0^x exp (-t²/2) dt`. -/
noncomputable def gaussSeries (n : ℕ) (x : ℝ) : ℝ :=
  ∑ k ∈ Finset.range n, (-1) ^ k * x ^ (2 * k + 1) / ((k.factorial : ℝ) * 2 ^ k * (2 * k + 1))

/-- The antiderivative value `∫_0^x exp (-t²/2) dt`. -/
noncomputable def gaussInt (x : ℝ) : ℝ := ∫ t in (0:ℝ)..x, gaussPDF t

/-- The standard normal cumulative distribution function (`scipy.stats.norm.cdf`). -/
noncomputable def normCdf (x : ℝ) : ℝ := (Real.sqrt (2 * Real.pi))⁻¹ * ∫ t in Iic x, gaussPDF t

open Classical in
/-- The standard normal quantile function (`scipy.stats.norm.ppf`), as the inverse of
`normCdf`; outside the range of `normCdf` it returns the junk value 0. -/
noncomputable def normPpf (q : ℝ) : ℝ := if h : ∃ x, normCdf x = q then h.choose else 0

/-- The record `namedtuple('variation', 'clicks impressions')` from the notebook. -/
structure variation where
  clicks : ℕ
  impressions : ℕ

/-- The proportion estimator `rate = v.clicks/v.impressions` computed in the notebook's
first code cell; `none` models Python's `ZeroDivisionError` when `impressions = 0`. -/
noncomputable def rate (v : variation) : Option ℝ :=
  if v.impressions = 0 then none else some ((v.clicks : ℝ) / v.impressions)

/-- Outcome of a numpy floating-point computation: a real value, or NaN (numpy emits
NaN with a warning instead of raising on `0.0/0.0` and `sqrt` of a negative). -/
inductive PyFloat where
  | nan : PyFloat
  | val : ℝ → PyFloat

/-- The pooled rate `p = (click_A + click_B)/(imp_A + imp_B)` of the two variations. -/
noncomputable def pooled_rate (vA vB : variation) : ℝ :=
  ((vA.clicks : ℝ) + (vB.clicks : ℝ)) / ((vA.impressions : ℝ) + (vB.impressions : ℝ))

/-- The null-hypothesis variance `p*(1-p)/variationA.impressions + p*(1-p)/variationB.impressions`. -/
noncomputable def null_variance (vA vB : variation) : ℝ :=
  pooled_rate vA vB * (1 - pooled_rate vA vB) / (vA.impressions : ℝ) +
    pooled_rate vA vB * (1 - pooled_rate vA vB) / (vB.impressions : ℝ)

open Classical in
/-- Embedding of `get_p_value_analytic`.  A zero impression count raises `ZeroDivisionError` in the
Python integer divisions (`none`).  The denominator `np.sqrt(variance)` is an
`np.float64`, so no later step raises; the degenerate branches follow IEEE semantics:
with `variance < 0` (possible only for `clicks > impressions`) `np.sqrt` yields NaN and
`norm.cdf(nan) = nan`, so NaN is returned; with `variance = 0` and a zero rate
difference, `abs_z = 0.0/0.0` is NaN and NaN is returned; with `variance = 0` and a
nonzero rate difference (again only for `clicks > impressions`, pooled rate 1),
`abs_z = x/0.0` is `+inf`, `norm.cdf(inf) = 1.0`, and the value `2*(1 - 1.0) = 0.0` is
returned. -/
noncomputable def get_p_value_analytic (variationA variationB : variation) : Option PyFloat :=
  if variationA.impressions = 0 ∨ variationB.impressions = 0 then none
  else if null_variance variationA variationB < 0 then some PyFloat.nan
  else if null_variance variationA variationB = 0 then
    if |(variationA.clicks : ℝ) / (variationA.impressions : ℝ) -
        (variationB.clicks : ℝ) / (variationB.impressions : ℝ)| = 0
    then some PyFloat.nan
    else some (PyFloat.val 0)
  else some (PyFloat.val (2 * (1 - normCdf
    (|(variationA.clicks : ℝ) / (variationA.impressions : ℝ) -
      (variationB.clicks : ℝ) / (variationB.impressions : ℝ)| /
      Real.sqrt (null_variance variationA variationB)))))

/-- The ambient `np.random` global generator state: an abstract stream of pseudo-random
natural numbers and the current position in it.  `np.random.seed` resets it to a
position determined by the seed; every binomial draw consumes one element. -/
structure RNG where
  stream : ℕ → ℕ
  pos : ℕ

/-- Embedding of `np.random.binomial(impressions, prob_click, size=(num_trials,))`: consumes
`num_trials` draws from the ambient generator state and advances it.  The
`impressions`/`prob_click` parameters select the sampling distribution, which the
embedded claims quantify over, so the draws themselves are the stream's values. -/
def draw_clicks_from_n_samples (rng : RNG) (impressions : ℕ) (prob_click : ℝ)
    (num_trials : ℕ) : List ℕ × RNG :=
  (((List.range num_trials).map fun i => rng.stream (rng.pos + i)),
    ⟨rng.stream, rng.pos + num_trials⟩)

/-- Embedding of `draw_p_sample_from_n_samples`: the drawn click counts divided by `impressions`. -/
noncomputable def draw_p_sample_from_n_samples (rng : RNG) (impressions : ℕ)
    (prob_click : ℝ) (num_trials : ℕ) : List ℝ × RNG :=
  ((draw_clicks_from_n_samples rng impressions prob_click num_trials).1.map
      (fun c : ℕ => (c : ℝ) / (impressions : ℝ)),
    (draw_clicks_from_n_samples rng impressions prob_click num_trials).2)

open Classical in
/-- Embedding of `get_p_value_from_simulation(num_simulations, variation_A, variation_B)`.
The ambient generator state is threaded explicitly.  A zero impression count raises
`ZeroDivisionError` before any draw (`difference_in_rate`); a pooled rate above 1
(possible only for `clicks > impressions`) makes `np.random.binomial` raise before
consuming state; `num_simulations = 0` raises `ZeroDivisionError` in `sum(...)/len(...)`
after the (empty) draws. -/
noncomputable def get_p_value_from_simulation (rng : RNG) (num_simulations : ℕ)
    (variation_A variation_B : variation) : Option ℝ × RNG :=
  if variation_A.impressions = 0 ∨ variation_B.impressions = 0 then (none, rng)
  else if 1 < pooled_rate variation_A variation_B then (none, rng)
  else
    let p := pooled_rate variation_A variation_B
    let difference_in_rate :=
      |(variation_A.clicks : ℝ) / (variation_A.impressions : ℝ) -
        (variation_B.clicks : ℝ) / (variation_B.impressions : ℝ)|
    let p_A_array := (draw_p_sample_from_n_samples rng variation_A.impressions p
      num_simulations).1
    let rng1 := (draw_p_sample_from_n_samples rng variation_A.impressions p
      num_simulations).2
    let p_B_array := (draw_p_sample_from_n_samples rng1 variation_B.impressions p
      num_simulations).1
    let rng2 := (draw_p_sample_from_n_samples rng1 variation_B.impressions p
      num_simulations).2
    let result_by_chance :=
      List.zipWith (fun a b => decide (difference_in_rate < |b - a|)) p_A_array p_B_array
    if num_simulations = 0 then (none, rng2)
    else (some ((result_by_chance.count true : ℝ) / (result_by_chance.length : ℝ)), rng2)

open Classical in
/-- Taken from the specification's wording for the simulation-based test: the number of
repetitions whose simulated absolute rate difference strictly exceeds the observed
absolute difference `d_obs`; used to state that the code returns exactly this fraction. -/
noncomputable def exceed_count (stream : ℕ → ℕ) (pos num : ℕ) (vA vB : variation) : ℕ :=
  ((List.range num).filter fun i =>
    decide (|(vA.clicks : ℝ) / (vA.impressions : ℝ) -
        (vB.clicks : ℝ) / (vB.impressions : ℝ)| <
      |(stream (pos + num + i) : ℝ) / (vB.impressions : ℝ) -
        (stream (pos + i) : ℝ) / (vA.impressions : ℝ)|)).length

open Classical in
/-- Embedding of `power_function(p_A_base, DeltaPi, alpha=0.05, beta=0.8)` from the notebook.
With `DeltaPi = 0` the numpy float division yields an infinity (or nan), and the final
`int(np.ceil(root_N**2))` conversion raises; modelled as `none`. -/
noncomputable def power_function (p_A_base DeltaPi alpha beta : ℝ) : Option ℤ :=
  if DeltaPi = 0 then none
  else
    let p_B := p_A_base + DeltaPi
    let p := 0.5 * (p_A_base + p_B)
    let z2 := |normPpf (1 - beta)|
    let z_crit := normPpf (1 - alpha / 2)
    let root_N := (z2 * Real.sqrt (p_A_base * (1 - p_A_base) + p_B * (1 - p_B)) +
        z_crit * Real.sqrt (2 * p * (1 - p))) / DeltaPi
    some ⌈root_N ^ 2⌉

/-- A concrete pseudo-random stream witnessing state-dependence of the simulation test. -/
def seqStream : ℕ → ℕ := fun n => if n = 2 then 2 else 0

theorem gaussPDF_continuous : Continuous gaussPDF := by
  unfold gaussPDF; fun_prop

theorem hasDerivAt_expP (n : ℕ) (u : ℝ) :
    HasDerivAt (expP (n + 1)) (-expP n u) u := by
  have h : ∀ k : ℕ, HasDerivAt (fun v : ℝ => (-1) ^ k * v ^ k / (k.factorial : ℝ))
      ((-1) ^ k * (k * u ^ (k - 1)) / (k.factorial : ℝ)) u := by
    intro k
    simpa [div_eq_mul_inv, mul_assoc, mul_comm, mul_left_comm] using
      (((hasDerivAt_pow k u).const_mul ((-1 : ℝ) ^ k)).div_const (k.factorial : ℝ))
  have hsum : HasDerivAt (expP (n + 1))
      (∑ k ∈ Finset.range (n + 1), (-1) ^ k * (k * u ^ (k - 1)) / (k.factorial : ℝ)) u := by
    have := HasDerivAt.sum (fun k (_ : k ∈ Finset.range (n + 1)) => h k)
    simpa [expP] using this
  have hEq : (∑ k ∈ Finset.range (n + 1), (-1) ^ k * (k * u ^ (k - 1)) / (k.factorial : ℝ))
      = -expP n u := by
    rw [Finset.sum_range_succ']
    simp only [Nat.cast_zero, zero_mul, mul_zero, zero_div, add_zero, pow_zero, one_mul,
      Nat.factorial_zero, Nat.cast_one]
    rw [expP, ← Finset.sum_neg_distrib]
    refine Finset.sum_congr rfl fun k _ => ?_
    have hk1 : ((k : ℝ) + 1) ≠ 0 := by positivity
    have hkf : ((k.factorial : ℕ) : ℝ) ≠ 0 := by
      exact_mod_cast k.factorial_pos.ne'
    rw [Nat.factorial_succ, pow_succ]
    push_cast
    field_simp
    ring
  rwa [hEq] at hsum

theorem nonneg_of_hasDerivAt (F F' : ℝ → ℝ) (hd : ∀ x, HasDerivAt F (F' x) x)
    (h0 : F 0 = 0) (hF' : ∀ x, 0 ≤ x → 0 ≤ F' x) {u : ℝ} (hu : 0 ≤ u) : 0 ≤ F u := by
  have hdiff : Differentiable ℝ F := fun x => (hd x).differentiableAt
  have hmono : MonotoneOn F (Ici 0) := by
    refine monotoneOn_of_deriv_nonneg (convex_Ici 0) hdiff.continuous.continuousOn
      hdiff.differentiableOn ?_
    intro x hx
    rw [interior_Ici] at hx
    rw [(hd x).deriv]
    exact hF' x (le_of_lt hx)
  have := hmono (left_mem_Ici) (mem_Ici.2 hu) hu
  rwa [h0] at this

theorem expP_zero_eval (n : ℕ) : expP (n + 1) 0 = 1 := by
  unfold expP
  rw [Finset.sum_range_succ']
  simp

theorem hasDerivAt_exp_neg (w : ℝ) : HasDerivAt (fun w : ℝ => Real.exp (-w)) (-Real.exp (-w)) w := by
  simpa using (Real.hasDerivAt_exp (-w)).comp w (hasDerivAt_neg w)

theorem expP_bound (m : ℕ) :
    ∀ u : ℝ, 0 ≤ u → expP (2 * m) u ≤ Real.exp (-u) ∧ Real.exp (-u) ≤ expP (2 * m + 1) u := by
  induction m with
  | zero =>
    intro u hu
    constructor
    · simpa [expP] using (Real.exp_pos (-u)).le
    · simpa [expP] using Real.exp_le_one_iff.mpr (neg_nonpos.mpr hu)
  | succ m ih =>
    have hlow : ∀ v : ℝ, 0 ≤ v → expP (2 * m + 2) v ≤ Real.exp (-v) := by
      intro v hv
      have key : 0 ≤ Real.exp (-v) - expP (2 * m + 2) v := by
        refine nonneg_of_hasDerivAt (fun w => Real.exp (-w) - expP (2 * m + 2) w)
          (fun w => expP (2 * m + 1) w - Real.exp (-w)) (fun w => ?_) ?_ ?_ hv
        · have hp := (hasDerivAt_exp_neg w).sub (hasDerivAt_expP (2 * m + 1) w)
          have harith : -Real.exp (-w) - -expP (2 * m + 1) w
              = expP (2 * m + 1) w - Real.exp (-w) := by ring
          rwa [harith] at hp
        · simp [expP_zero_eval]
        · intro x hx
          show 0 ≤ expP (2 * m + 1) x - Real.exp (-x)
          linarith [(ih x hx).2]
      linarith
    intro u hu
    constructor
    · have h2 : (2 : ℕ) * (m + 1) = 2 * m + 2 := by ring
      rw [h2]
      exact hlow u hu
    · have key : 0 ≤ expP (2 * m + 3) u - Real.exp (-u) := by
        refine nonneg_of_hasDerivAt (fun w => expP (2 * m + 3) w - Real.exp (-w))
          (fun w => Real.exp (-w) - expP (2 * m + 2) w) (fun w => ?_) ?_ ?_ hu
        · have hp := (hasDerivAt_expP (2 * m + 2) w).sub (hasDerivAt_exp_neg w)
          have harith : -expP (2 * m + 2) w - -Real.exp (-w)
              = Real.exp (-w) - expP (2 * m + 2) w := by ring
          rwa [harith] at hp
        · simp [expP_zero_eval]
        · intro x hx
          show 0 ≤ Real.exp (-x) - expP (2 * m + 2) x
          linarith [hlow x hx]
      have h3 : (2 : ℕ) * (m + 1) + 1 = 2 * m + 3 := by ring
      rw [h3]
      linarith

theorem integral_expP_eq (n : ℕ) (x : ℝ) :
    (∫ t in (0:ℝ)..x, expP n (t ^ 2 / 2)) = gaussSeries n x := by
  have hterm : ∀ t : ℝ, expP n (t ^ 2 / 2)
      = ∑ k ∈ Finset.range n, ((-1) ^ k / ((k.factorial : ℝ) * 2 ^ k)) * t ^ (2 * k) := by
    intro t
    unfold expP
    refine Finset.sum_congr rfl fun k _ => ?_
    rw [div_pow, pow_mul]
    ring
  rw [intervalIntegral.integral_congr (fun t _ => hterm t)]
  rw [intervalIntegral.integral_finset_sum]
  · unfold gaussSeries
    refine Finset.sum_congr rfl fun k _ => ?_
    rw [intervalIntegral.integral_const_mul, integral_pow]
    have h1 : ((2 * k + 1 : ℕ) : ℝ) = 2 * (k : ℝ) + 1 := by push_cast; ring
    have h2 : (0:ℝ) ^ (2 * k + 1) = 0 := by
      exact zero_pow (Nat.succ_ne_zero _)
    rw [h2]
    have hk1 : (2 * (k:ℝ) + 1) ≠ 0 := by positivity
    have hkf : ((k.factorial : ℕ) : ℝ) ≠ 0 := by exact_mod_cast k.factorial_pos.ne'
    push_cast
    field_simp
    try ring
  · intro k _
    exact Continuous.intervalIntegrable (by fun_prop) 0 x

theorem gaussInt_ge (m : ℕ) (x : ℝ) (hx : 0 ≤ x) : gaussSeries (2 * m) x ≤ gaussInt x := by
  rw [← integral_expP_eq]
  refine intervalIntegral.integral_mono_on hx
    (Continuous.intervalIntegrable (by unfold expP; fun_prop) 0 x)
    (Continuous.intervalIntegrable gaussPDF_continuous 0 x) ?_
  intro t _
  have h := (expP_bound m (t ^ 2 / 2) (by positivity)).1
  unfold gaussPDF
  have harith : -t ^ 2 / 2 = -(t ^ 2 / 2) := by ring
  rwa [harith]

theorem gaussInt_le (m : ℕ) (x : ℝ) (hx : 0 ≤ x) : gaussInt x ≤ gaussSeries (2 * m + 1) x := by
  rw [← integral_expP_eq]
  refine intervalIntegral.integral_mono_on hx
    (Continuous.intervalIntegrable gaussPDF_continuous 0 x)
    (Continuous.intervalIntegrable (by unfold expP; fun_prop) 0 x) ?_
  intro t _
  have h := (expP_bound m (t ^ 2 / 2) (by positivity)).2
  unfold gaussPDF
  have harith : -t ^ 2 / 2 = -(t ^ 2 / 2) := by ring
  rwa [harith]

theorem gaussPDF_alt : gaussPDF = fun t : ℝ => Real.exp (-(1/2 : ℝ) * t ^ 2) := by
  funext t
  unfold gaussPDF
  ring_nf

theorem gaussPDF_integrable : Integrable gaussPDF := by
  rw [gaussPDF_alt]
  exact integrable_exp_neg_mul_sq (by norm_num)

theorem gaussPDF_total : (∫ t : ℝ, gaussPDF t) = Real.sqrt (2 * Real.pi) := by
  rw [gaussPDF_alt, integral_gaussian]
  have h : Real.pi / (1/2 : ℝ) = 2 * Real.pi := by ring
  rw [h]

theorem gaussPDF_even (t : ℝ) : gaussPDF (-t) = gaussPDF t := by
  unfold gaussPDF
  ring_nf

theorem sqrt_two_pi_pos : 0 < Real.sqrt (2 * Real.pi) :=
  Real.sqrt_pos.mpr (by positivity)

theorem integral_gaussPDF_Iic_zero :
    (∫ t in Iic (0:ℝ), gaussPDF t) = Real.sqrt (2 * Real.pi) / 2 := by
  have h1 : (∫ t in Iic (-(0:ℝ)), gaussPDF t) = ∫ t in Ioi (0:ℝ), gaussPDF t := by
    rw [← integral_comp_neg_Ioi]
    simp only [gaussPDF_even]
  have h2 := intervalIntegral.integral_Iic_add_Ioi
    (gaussPDF_integrable.integrableOn (s := Iic (0:ℝ)))
    (gaussPDF_integrable.integrableOn (s := Ioi (0:ℝ)))
  rw [gaussPDF_total] at h2
  rw [neg_zero] at h1
  linarith

theorem normCdf_sub (a b : ℝ) :
    normCdf b - normCdf a = (Real.sqrt (2 * Real.pi))⁻¹ * ∫ t in a..b, gaussPDF t := by
  unfold normCdf
  rw [← mul_sub, intervalIntegral.integral_Iic_sub_Iic
    (gaussPDF_integrable.integrableOn) (gaussPDF_integrable.integrableOn)]

theorem normCdf_zero : normCdf 0 = 1/2 := by
  unfold normCdf
  rw [integral_gaussPDF_Iic_zero]
  have hs : Real.sqrt (2 * Real.pi) ≠ 0 := ne_of_gt sqrt_two_pi_pos
  field_simp

theorem normCdf_eq (x : ℝ) :
    normCdf x = 1/2 + (Real.sqrt (2 * Real.pi))⁻¹ * gaussInt x := by
  have h := normCdf_sub 0 x
  rw [normCdf_zero] at h
  unfold gaussInt
  linarith [h]

theorem hasDerivAt_normCdf (x : ℝ) :
    HasDerivAt normCdf ((Real.sqrt (2 * Real.pi))⁻¹ * gaussPDF x) x := by
  have hfun : normCdf = fun y => 1/2 + (Real.sqrt (2 * Real.pi))⁻¹ * gaussInt y :=
    funext normCdf_eq
  rw [hfun]
  have h := (gaussPDF_continuous.integral_hasStrictDerivAt 0 x).hasDerivAt
  exact ((h.const_mul ((Real.sqrt (2 * Real.pi))⁻¹)).const_add (1/2 : ℝ))

theorem normCdf_strictMono : StrictMono normCdf := by
  refine strictMono_of_deriv_pos fun x => ?_
  rw [(hasDerivAt_normCdf x).deriv]
  have h1 : 0 < (Real.sqrt (2 * Real.pi))⁻¹ := inv_pos.mpr sqrt_two_pi_pos
  have h2 : 0 < gaussPDF x := Real.exp_pos _
  positivity

theorem normCdf_continuous : Continuous normCdf := by
  have : Differentiable ℝ normCdf := fun x => (hasDerivAt_normCdf x).differentiableAt
  exact this.continuous

theorem normCdf_neg (x : ℝ) : normCdf (-x) = 1 - normCdf x := by
  unfold normCdf
  have h1 : (∫ t in Iic (-x), gaussPDF t) = ∫ t in Ioi x, gaussPDF t := by
    rw [← integral_comp_neg_Ioi]
    simp only [gaussPDF_even]
  have h2 := intervalIntegral.integral_Iic_add_Ioi
    (gaussPDF_integrable.integrableOn (s := Iic x))
    (gaussPDF_integrable.integrableOn (s := Ioi x))
  rw [gaussPDF_total] at h2
  have hs : Real.sqrt (2 * Real.pi) ≠ 0 := ne_of_gt sqrt_two_pi_pos
  have h3 : (∫ t in Ioi x, gaussPDF t) = Real.sqrt (2 * Real.pi) - ∫ t in Iic x, gaussPDF t := by
    linarith
  rw [h1, h3, mul_sub, inv_mul_cancel₀ hs]

theorem sqrt_two_pi_gt : (2.506628 : ℝ) < Real.sqrt (2 * Real.pi) := by
  rw [Real.lt_sqrt (by norm_num)]
  nlinarith [Real.pi_gt_d6]

theorem sqrt_two_pi_lt : Real.sqrt (2 * Real.pi) < 2.506629 := by
  rw [Real.sqrt_lt' (by norm_num)]
  nlinarith [Real.pi_lt_d6]

theorem gaussInt_nonneg (x : ℝ) (hx : 0 ≤ x) : 0 ≤ gaussInt x := by
  have h := gaussInt_ge 0 x hx
  simpa [gaussSeries] using h

theorem normCdf_lt_of (x r : ℝ) (m : ℕ) (hx : 0 ≤ x) (hr : 1/2 ≤ r)
    (h : gaussSeries (2 * m + 1) x < (r - 1/2) * 2.506628) : normCdf x < r := by
  rw [normCdf_eq x]
  have h1 : gaussInt x ≤ gaussSeries (2 * m + 1) x := gaussInt_le m x hx
  have hc : 0 < (Real.sqrt (2 * Real.pi))⁻¹ := inv_pos.mpr sqrt_two_pi_pos
  have h2 : (Real.sqrt (2 * Real.pi))⁻¹ * gaussInt x
      < (Real.sqrt (2 * Real.pi))⁻¹ * ((r - 1/2) * 2.506628) := by
    exact mul_lt_mul_of_pos_left (lt_of_le_of_lt h1 h) hc
  have h3 : (Real.sqrt (2 * Real.pi))⁻¹ * 2.506628 < 1 := by
    rw [inv_mul_lt_iff₀ sqrt_two_pi_pos, mul_one]
    exact sqrt_two_pi_gt
  have h4 : (Real.sqrt (2 * Real.pi))⁻¹ * ((r - 1/2) * 2.506628) ≤ (r - 1/2) * 1 := by
    have := mul_le_mul_of_nonneg_left (le_of_lt h3) (by linarith : (0:ℝ) ≤ r - 1/2)
    calc (Real.sqrt (2 * Real.pi))⁻¹ * ((r - 1/2) * 2.506628)
        = (r - 1/2) * ((Real.sqrt (2 * Real.pi))⁻¹ * 2.506628) := by ring
      _ ≤ (r - 1/2) * 1 := this
  linarith

theorem normCdf_gt_of (x r : ℝ) (m : ℕ) (hx : 0 ≤ x) (hr : 1/2 ≤ r)
    (h : (r - 1/2) * 2.506629 < gaussSeries (2 * m) x) : r < normCdf x := by
  rw [normCdf_eq x]
  have h1 : gaussSeries (2 * m) x ≤ gaussInt x := gaussInt_ge m x hx
  have hc : 0 < (Real.sqrt (2 * Real.pi))⁻¹ := inv_pos.mpr sqrt_two_pi_pos
  have h2 : (Real.sqrt (2 * Real.pi))⁻¹ * ((r - 1/2) * 2.506629)
      < (Real.sqrt (2 * Real.pi))⁻¹ * gaussInt x :=
    mul_lt_mul_of_pos_left (lt_of_lt_of_le h h1) hc
  have h3 : 1 < (Real.sqrt (2 * Real.pi))⁻¹ * 2.506629 := by
    have hs' : (Real.sqrt (2 * Real.pi))⁻¹ * Real.sqrt (2 * Real.pi) = 1 :=
      inv_mul_cancel₀ (ne_of_gt sqrt_two_pi_pos)
    calc (1:ℝ) = (Real.sqrt (2 * Real.pi))⁻¹ * Real.sqrt (2 * Real.pi) := hs'.symm
      _ < (Real.sqrt (2 * Real.pi))⁻¹ * 2.506629 := mul_lt_mul_of_pos_left sqrt_two_pi_lt hc
  have h4 : (r - 1/2) * 1 ≤ (Real.sqrt (2 * Real.pi))⁻¹ * ((r - 1/2) * 2.506629) := by
    have := mul_le_mul_of_nonneg_left (le_of_lt h3) (by linarith : (0:ℝ) ≤ r - 1/2)
    calc (r - 1/2) * 1 ≤ (r - 1/2) * ((Real.sqrt (2 * Real.pi))⁻¹ * 2.506629) := this
      _ = (Real.sqrt (2 * Real.pi))⁻¹ * ((r - 1/2) * 2.506629) := by ring
  linarith

theorem normCdf_25675_gt : (0.9941 : ℝ) < normCdf 2.5675 := by
  refine normCdf_gt_of _ _ 9 (by norm_num) (by norm_num) ?_
  simp only [gaussSeries, Finset.sum_range_succ, Finset.sum_range_zero, Nat.factorial]
  norm_num

theorem normCdf_25676_lt : normCdf 2.5676 < (0.9951 : ℝ) := by
  refine normCdf_lt_of _ _ 8 (by norm_num) (by norm_num) ?_
  simp only [gaussSeries, Finset.sum_range_succ, Finset.sum_range_zero, Nat.factorial]
  norm_num

theorem normCdf_084147_lt : normCdf 0.84147 < (0.8 : ℝ) := by
  refine normCdf_lt_of _ _ 3 (by norm_num) (by norm_num) ?_
  simp only [gaussSeries, Finset.sum_range_succ, Finset.sum_range_zero, Nat.factorial]
  norm_num

theorem normCdf_084177_gt : (0.8 : ℝ) < normCdf 0.84177 := by
  refine normCdf_gt_of _ _ 3 (by norm_num) (by norm_num) ?_
  simp only [gaussSeries, Finset.sum_range_succ, Finset.sum_range_zero, Nat.factorial]
  norm_num

theorem normCdf_195981_lt : normCdf 1.95981 < (0.975 : ℝ) := by
  refine normCdf_lt_of _ _ 6 (by norm_num) (by norm_num) ?_
  simp only [gaussSeries, Finset.sum_range_succ, Finset.sum_range_zero, Nat.factorial]
  norm_num

theorem normCdf_196011_gt : (0.975 : ℝ) < normCdf 1.96011 := by
  refine normCdf_gt_of _ _ 7 (by norm_num) (by norm_num) ?_
  simp only [gaussSeries, Finset.sum_range_succ, Finset.sum_range_zero, Nat.factorial]
  norm_num

theorem normCdf_one_gt : (0.8 : ℝ) < normCdf 1 := by
  refine normCdf_gt_of _ _ 4 (by norm_num) (by norm_num) ?_
  simp only [gaussSeries, Finset.sum_range_succ, Finset.sum_range_zero, Nat.factorial]
  norm_num

theorem normCdf_two_gt : (0.975 : ℝ) < normCdf 2 := by
  refine normCdf_gt_of _ _ 5 (by norm_num) (by norm_num) ?_
  simp only [gaussSeries, Finset.sum_range_succ, Finset.sum_range_zero, Nat.factorial]
  norm_num

theorem normCdf_normPpf {q : ℝ} (h : ∃ x, normCdf x = q) : normCdf (normPpf q) = q := by
  rw [normPpf, dif_pos h]
  exact h.choose_spec

theorem normPpf_nonneg {q : ℝ} (hq : 1/2 ≤ q) : 0 ≤ normPpf q := by
  unfold normPpf
  split_ifs with h
  · have hspec : normCdf h.choose = q := h.choose_spec
    by_contra hneg
    push_neg at hneg
    have h2 : normCdf h.choose < normCdf 0 := normCdf_strictMono hneg
    rw [hspec, normCdf_zero] at h2
    linarith
  · exact le_refl 0

theorem exists_normCdf_eq_02 : ∃ x, normCdf x = 0.2 := by
  have hsub := intermediate_value_Icc (by norm_num : (-1:ℝ) ≤ 0) normCdf_continuous.continuousOn
  have hmem : (0.2 : ℝ) ∈ Icc (normCdf (-1)) (normCdf 0) := by
    rw [normCdf_zero, normCdf_neg]
    constructor
    · linarith [normCdf_one_gt]
    · norm_num
  obtain ⟨x, _, hx⟩ := hsub hmem
  exact ⟨x, hx⟩

theorem exists_normCdf_eq_0975 : ∃ x, normCdf x = 0.975 := by
  have hsub := intermediate_value_Icc (by norm_num : (0:ℝ) ≤ 2) normCdf_continuous.continuousOn
  have hmem : (0.975 : ℝ) ∈ Icc (normCdf 0) (normCdf 2) := by
    rw [normCdf_zero]
    exact ⟨by norm_num, le_of_lt normCdf_two_gt⟩
  obtain ⟨x, _, hx⟩ := hsub hmem
  exact ⟨x, hx⟩

theorem normCdf_neg_084177_lt : normCdf (-0.84177) < (0.2:ℝ) := by
  rw [show ((-0.84177 : ℝ)) = -(0.84177) from by norm_num, normCdf_neg]
  linarith [normCdf_084177_gt]

theorem normCdf_neg_084147_gt : (0.2:ℝ) < normCdf (-0.84147) := by
  rw [show ((-0.84147 : ℝ)) = -(0.84147) from by norm_num, normCdf_neg]
  linarith [normCdf_084147_lt]

theorem normPpf_02_bracket : -0.84177 < normPpf 0.2 ∧ normPpf 0.2 < -0.84147 := by
  have h := normCdf_normPpf exists_normCdf_eq_02
  constructor
  · exact normCdf_strictMono.lt_iff_lt.mp (by rw [h]; exact normCdf_neg_084177_lt)
  · exact normCdf_strictMono.lt_iff_lt.mp (by rw [h]; exact normCdf_neg_084147_gt)

theorem normPpf_0975_bracket : 1.95981 < normPpf 0.975 ∧ normPpf 0.975 < 1.96011 := by
  have h := normCdf_normPpf exists_normCdf_eq_0975
  constructor
  · exact normCdf_strictMono.lt_iff_lt.mp (by rw [h]; exact normCdf_195981_lt)
  · exact normCdf_strictMono.lt_iff_lt.mp (by rw [h]; exact normCdf_196011_gt)

theorem zipWith_map_range {α β γ : Type} (f : α → β → γ) (g1 : ℕ → α) (g2 : ℕ → β) (n : ℕ) :
    List.zipWith f ((List.range n).map g1) ((List.range n).map g2) =
      (List.range n).map (fun i => f (g1 i) (g2 i)) := by
  induction n with
  | zero => rfl
  | succ n ih =>
    rw [List.range_succ, List.map_append, List.map_append, List.map_append,
      List.zipWith_append _ _ _ _ _ (by simp), ih]
    rfl

/-- C9: calling the analytic test with the same non-degenerate observation pair for both
arguments yields a z-statistic of 0 and hence the p-value 1. -/
theorem claim9_identical_pairs (v : variation) (h1 : 0 < v.clicks) (h2 : v.clicks < v.impressions) :
    get_p_value_analytic v v = some (PyFloat.val 1) := by
  have himpn : v.impressions ≠ 0 := by omega
  have himp : (0:ℝ) < (v.impressions : ℝ) := by exact_mod_cast Nat.pos_of_ne_zero himpn
  have hp : pooled_rate v v = (v.clicks : ℝ) / (v.impressions : ℝ) := by
    unfold pooled_rate
    rw [div_eq_div_iff (by linarith) (by linarith)]
    ring
  have hrpos : 0 < (v.clicks : ℝ) / (v.impressions : ℝ) := by
    apply div_pos _ himp
    exact_mod_cast h1
  have hrlt : (v.clicks : ℝ) / (v.impressions : ℝ) < 1 := by
    rw [div_lt_one himp]
    exact_mod_cast h2
  have hvar : 0 < null_variance v v := by
    unfold null_variance
    rw [hp]
    have hnum : 0 < (v.clicks : ℝ) / (v.impressions : ℝ) *
        (1 - (v.clicks : ℝ) / (v.impressions : ℝ)) := mul_pos hrpos (by linarith)
    positivity
  unfold get_p_value_analytic
  rw [if_neg (by push_neg; exact ⟨himpn, himpn⟩), if_neg (not_lt.mpr hvar.le),
    if_neg hvar.ne']
  have habs : |(v.clicks : ℝ) / (v.impressions : ℝ) - (v.clicks : ℝ) / (v.impressions : ℝ)|
      = 0 := by simp
  rw [habs, zero_div, normCdf_zero]
  norm_num

/-- Witness for C9 at the pair (clicks, impressions) = (1, 2). -/
theorem claim9_identical_pairs_witness :
    get_p_value_analytic ⟨1, 2⟩ ⟨1, 2⟩ = some (PyFloat.val 1) :=
  claim9_identical_pairs ⟨1, 2⟩ (by norm_num) (by norm_num)

/-- C4 counterexample: at the degenerate pair (0 clicks, 5 impressions) compared with
itself the pooled variance is 0, yet the analytic test does not fail with an error: it
returns the NaN value produced by numpy's `0.0/np.sqrt(0.0)`. -/
theorem claim4_counterexample :
    null_variance ⟨0, 5⟩ ⟨0, 5⟩ = 0 ∧
      get_p_value_analytic ⟨0, 5⟩ ⟨0, 5⟩ ≠ none ∧
      get_p_value_analytic ⟨0, 5⟩ ⟨0, 5⟩ = some PyFloat.nan := by
  have hvar : null_variance ⟨0, 5⟩ ⟨0, 5⟩ = 0 := by
    unfold null_variance pooled_rate
    norm_num
  have hres : get_p_value_analytic ⟨0, 5⟩ ⟨0, 5⟩ = some PyFloat.nan := by
    unfold get_p_value_analytic
    rw [if_neg (by norm_num), if_neg (by rw [hvar]; norm_num), if_pos hvar,
      if_pos (by norm_num)]
  exact ⟨hvar, by rw [hres]; exact Option.some_ne_none _, hres⟩

/-- C4 amended: for nonzero impression counts with pooled variance 0 the analytic test
never fails with an error: when the two observed rates are equal (forced whenever
`clicks ≤ impressions`) numpy's `0.0/np.sqrt(0.0)` is NaN and NaN is returned, and in
the remaining invariant-violating case (`variance = 0` with distinct rates, pooled
rate 1) the division yields `+inf`, `norm.cdf(inf) = 1.0`, and the value `0.0` is
returned. -/
theorem claim4_zero_variance_returns_value (vA vB : variation) (hA : vA.impressions ≠ 0)
    (hB : vB.impressions ≠ 0) (hvar : null_variance vA vB = 0) :
    get_p_value_analytic vA vB ≠ none ∧
    ((vA.clicks : ℝ) / (vA.impressions : ℝ) = (vB.clicks : ℝ) / (vB.impressions : ℝ) →
      get_p_value_analytic vA vB = some PyFloat.nan) ∧
    ((vA.clicks : ℝ) / (vA.impressions : ℝ) ≠ (vB.clicks : ℝ) / (vB.impressions : ℝ) →
      get_p_value_analytic vA vB = some (PyFloat.val 0)) := by
  have hbr : get_p_value_analytic vA vB =
      if |(vA.clicks : ℝ) / (vA.impressions : ℝ) -
          (vB.clicks : ℝ) / (vB.impressions : ℝ)| = 0
      then some PyFloat.nan else some (PyFloat.val 0) := by
    unfold get_p_value_analytic
    rw [if_neg (by push_neg; exact ⟨hA, hB⟩), if_neg (by rw [hvar]; norm_num), if_pos hvar]
  refine ⟨?_, ?_, ?_⟩
  · rw [hbr]
    by_cases hd : |(vA.clicks : ℝ) / (vA.impressions : ℝ) -
        (vB.clicks : ℝ) / (vB.impressions : ℝ)| = 0
    · rw [if_pos hd]
      exact Option.some_ne_none _
    · rw [if_neg hd]
      exact Option.some_ne_none _
  · intro heq
    rw [hbr, if_pos (by rw [heq]; simp)]
  · intro hne
    have hd : ¬ (|(vA.clicks : ℝ) / (vA.impressions : ℝ) -
        (vB.clicks : ℝ) / (vB.impressions : ℝ)| = 0) := by
      rw [abs_eq_zero, sub_eq_zero]
      exact hne
    rw [hbr, if_neg hd]

/-- Witness for the amended C4 at the pairs (0,4) and (0,6). -/
theorem claim4_zero_variance_returns_value_witness :
    get_p_value_analytic ⟨0, 4⟩ ⟨0, 6⟩ ≠ none ∧
    (((0:ℕ) : ℝ) / ((4:ℕ) : ℝ) = ((0:ℕ) : ℝ) / ((6:ℕ) : ℝ) →
      get_p_value_analytic ⟨0, 4⟩ ⟨0, 6⟩ = some PyFloat.nan) ∧
    (((0:ℕ) : ℝ) / ((4:ℕ) : ℝ) ≠ ((0:ℕ) : ℝ) / ((6:ℕ) : ℝ) →
      get_p_value_analytic ⟨0, 4⟩ ⟨0, 6⟩ = some (PyFloat.val 0)) :=
  claim4_zero_variance_returns_value ⟨0, 4⟩ ⟨0, 6⟩ (by norm_num) (by norm_num)
    (by unfold null_variance pooled_rate; norm_num)

/-- C5: a zero trial count makes the proportion estimator and both significance tests
fail, and a zero `DeltaPi` makes the sample-size calculator fail; no partial result is
returned in any of these cases. -/
theorem claim5_invalid_inputs :
    (∀ v : variation, v.impressions = 0 → rate v = none) ∧
    (∀ (rng : RNG) (num : ℕ) (vA vB : variation),
      vA.impressions = 0 ∨ vB.impressions = 0 →
      (get_p_value_from_simulation rng num vA vB).1 = none) ∧
    (∀ vA vB : variation, vA.impressions = 0 ∨ vB.impressions = 0 →
      get_p_value_analytic vA vB = none) ∧
    (∀ p_A_base alpha beta : ℝ, 0 < p_A_base → p_A_base < 1 → 0 < alpha → alpha < 1 →
      0 < beta → beta < 1 → power_function p_A_base 0 alpha beta = none) := by
  refine ⟨?_, ?_, ?_, ?_⟩
  · intro v hv
    simp [rate, hv]
  · intro rng num vA vB h
    unfold get_p_value_from_simulation
    rw [if_pos h]
  · intro vA vB h
    unfold get_p_value_analytic
    rw [if_pos h]
  · intro p a b _ _ _ _ _ _
    unfold power_function
    rw [if_pos rfl]

/-- Witness for C5 at concrete degenerate inputs. -/
theorem claim5_invalid_inputs_witness :
    rate ⟨3, 0⟩ = none ∧
      (get_p_value_from_simulation ⟨seqStream, 0⟩ 5 ⟨3, 0⟩ ⟨1, 2⟩).1 = none ∧
      get_p_value_analytic ⟨3, 0⟩ ⟨1, 2⟩ = none ∧
      power_function 0.3 0 0.05 0.8 = none :=
  ⟨claim5_invalid_inputs.1 ⟨3, 0⟩ rfl,
    claim5_invalid_inputs.2.1 ⟨seqStream, 0⟩ 5 ⟨3, 0⟩ ⟨1, 2⟩ (Or.inl rfl),
    claim5_invalid_inputs.2.2.1 ⟨3, 0⟩ ⟨1, 2⟩ (Or.inl rfl),
    claim5_invalid_inputs.2.2.2 0.3 0.05 0.8 (by norm_num) (by norm_num) (by norm_num)
      (by norm_num) (by norm_num) (by norm_num)⟩

theorem pooled_rate_comm (vA vB : variation) : pooled_rate vB vA = pooled_rate vA vB := by
  unfold pooled_rate
  rw [add_comm ((vB.clicks : ℝ)) ((vA.clicks : ℝ)),
    add_comm ((vB.impressions : ℝ)) ((vA.impressions : ℝ))]

theorem null_variance_comm (vA vB : variation) :
    null_variance vB vA = null_variance vA vB := by
  unfold null_variance
  rw [pooled_rate_comm]
  ring

/-- C7: both significance tests are symmetric in their two observation pairs; for the
simulation test, symmetric means with the per-group draws also exchanged (stream `τ`
feeds the swapped call the same group draws that `σ` feeds the original call). -/
theorem claim7_symmetry :
    (∀ vA vB : variation, get_p_value_analytic vB vA = get_p_value_analytic vA vB) ∧
    (∀ (σ τ : ℕ → ℕ) (pos num : ℕ) (vA vB : variation),
      (∀ i, i < num → τ (pos + i) = σ (pos + num + i) ∧ τ (pos + num + i) = σ (pos + i)) →
      (get_p_value_from_simulation ⟨τ, pos⟩ num vB vA).1 =
        (get_p_value_from_simulation ⟨σ, pos⟩ num vA vB).1) := by
  constructor
  · intro vA vB
    have habs : |(vB.clicks : ℝ) / (vB.impressions : ℝ) - (vA.clicks : ℝ) / (vA.impressions : ℝ)|
        = |(vA.clicks : ℝ) / (vA.impressions : ℝ) - (vB.clicks : ℝ) / (vB.impressions : ℝ)| :=
      abs_sub_comm _ _
    unfold get_p_value_analytic
    rw [null_variance_comm, habs]
    by_cases h1 : vA.impressions = 0 ∨ vB.impressions = 0
    · rw [if_pos h1.symm, if_pos h1]
    · rw [if_neg (fun hc => h1 hc.symm), if_neg h1]
  · intro σ τ pos num vA vB hagree
    unfold get_p_value_from_simulation draw_p_sample_from_n_samples draw_clicks_from_n_samples
    rw [pooled_rate_comm]
    by_cases h1 : vA.impressions = 0 ∨ vB.impressions = 0
    · rw [if_pos h1.symm, if_pos h1]
    · rw [if_neg (fun hc => h1 hc.symm), if_neg h1]
      by_cases h2 : 1 < pooled_rate vA vB
      · rw [if_pos h2, if_pos h2]
      · rw [if_neg h2, if_neg h2]
        by_cases h3 : num = 0
        · rw [if_pos h3, if_pos h3]
        · rw [if_neg h3, if_neg h3]
          simp only [List.map_map]
          rw [zipWith_map_range, zipWith_map_range]
          have hmap : (List.range num).map
              (fun i => decide (|(vB.clicks : ℝ) / (vB.impressions : ℝ) -
                  (vA.clicks : ℝ) / (vA.impressions : ℝ)| <
                |((fun c : ℕ => (c : ℝ) / (vA.impressions : ℝ)) ∘
                    fun i => τ (pos + num + i)) i -
                  ((fun c : ℕ => (c : ℝ) / (vB.impressions : ℝ)) ∘ fun i => τ (pos + i)) i|))
              = (List.range num).map
              (fun i => decide (|(vA.clicks : ℝ) / (vA.impressions : ℝ) -
                  (vB.clicks : ℝ) / (vB.impressions : ℝ)| <
                |((fun c : ℕ => (c : ℝ) / (vB.impressions : ℝ)) ∘
                    fun i => σ (pos + num + i)) i -
                  ((fun c : ℕ => (c : ℝ) / (vA.impressions : ℝ)) ∘ fun i => σ (pos + i)) i|)) := by
            refine List.map_congr_left fun i hi => ?_
            have hi' : i < num := List.mem_range.mp hi
            obtain ⟨he1, he2⟩ := hagree i hi'
            simp only [Function.comp_apply, he1, he2]
            congr 1
            rw [abs_sub_comm ((vA.clicks : ℝ) / (vA.impressions : ℝ)) _]
            congr 1
            rw [abs_sub_comm]
          rw [hmap]

/-- Witness for the simulation half of C7 with matching draws. -/
theorem claim7_symmetry_witness :
    (get_p_value_from_simulation ⟨fun _ => 0, 0⟩ 1 ⟨1, 2⟩ ⟨0, 2⟩).1 =
      (get_p_value_from_simulation ⟨fun _ => 0, 0⟩ 1 ⟨0, 2⟩ ⟨1, 2⟩).1 :=
  claim7_symmetry.2 (fun _ => 0) (fun _ => 0) 0 1 ⟨0, 2⟩ ⟨1, 2⟩ (fun _ _ => ⟨rfl, rfl⟩)

theorem sim_eval_first :
    get_p_value_from_simulation ⟨seqStream, 0⟩ 1 ⟨0, 2⟩ ⟨1, 2⟩ = (some 0, ⟨seqStream, 2⟩) := by
  unfold get_p_value_from_simulation draw_p_sample_from_n_samples draw_clicks_from_n_samples
  rw [if_neg (by norm_num), if_neg (by unfold pooled_rate; norm_num), if_neg (by norm_num)]
  simp only [List.range_succ, List.range_zero, List.nil_append, List.map_cons, List.map_nil,
    List.zipWith_cons_cons, List.zipWith_nil_right]
  norm_num [seqStream]

theorem sim_eval_second :
    get_p_value_from_simulation ⟨seqStream, 2⟩ 1 ⟨0, 2⟩ ⟨1, 2⟩ = (some 1, ⟨seqStream, 4⟩) := by
  unfold get_p_value_from_simulation draw_p_sample_from_n_samples draw_clicks_from_n_samples
  rw [if_neg (by norm_num), if_neg (by unfold pooled_rate; norm_num), if_neg (by norm_num)]
  simp only [List.range_succ, List.range_zero, List.nil_append, List.map_cons, List.map_nil,
    List.zipWith_cons_cons, List.zipWith_nil_right]
  norm_num [seqStream]
  rw [decide_eq_true (show |(1:ℝ)/2| < 1 by
    rw [abs_of_nonneg (by norm_num : (0:ℝ) ≤ 1/2)]; norm_num)]
  norm_num

/-- C3 counterexample: the simulation test takes no seed parameter; it reads the ambient
`np.random` state.  With that state seeded once, two calls with identical arguments
(`num_trials`, the two observation pairs) return different results, because the first
call advances the global state. -/
theorem claim3_counterexample :
    (get_p_value_from_simulation ⟨seqStream, 0⟩ 1 ⟨0, 2⟩ ⟨1, 2⟩).1 ≠
      (get_p_value_from_simulation
        ((get_p_value_from_simulation ⟨seqStream, 0⟩ 1 ⟨0, 2⟩ ⟨1, 2⟩).2) 1 ⟨0, 2⟩ ⟨1, 2⟩).1 := by
  rw [sim_eval_first]
  rw [show ((some (0:ℝ), (⟨seqStream, 2⟩ : RNG)).2) = (⟨seqStream, 2⟩ : RNG) from rfl,
    sim_eval_second]
  simp only [ne_eq, Option.some.injEq]
  norm_num

/-- C3 amended: the result of the simulation test is a deterministic function of the
generator state it consumes: two calls whose streams agree on the `2·num_trials` draws
actually consumed (for example, after `np.random.seed` with the same seed) return equal
results; no per-call seed parameter exists, so this is the only reproducibility the code
offers. -/
theorem claim3_seed_determinism (σ τ : ℕ → ℕ) (posσ posτ num : ℕ) (vA vB : variation)
    (hagree : ∀ i, i < 2 * num → σ (posσ + i) = τ (posτ + i)) :
    (get_p_value_from_simulation ⟨σ, posσ⟩ num vA vB).1 =
      (get_p_value_from_simulation ⟨τ, posτ⟩ num vA vB).1 := by
  unfold get_p_value_from_simulation draw_p_sample_from_n_samples draw_clicks_from_n_samples
  by_cases h1 : vA.impressions = 0 ∨ vB.impressions = 0
  · rw [if_pos h1, if_pos h1]
  · rw [if_neg h1, if_neg h1]
    by_cases h2 : 1 < pooled_rate vA vB
    · rw [if_pos h2, if_pos h2]
    · rw [if_neg h2, if_neg h2]
      by_cases h3 : num = 0
      · rw [if_pos h3, if_pos h3]
      · rw [if_neg h3, if_neg h3]
        simp only [List.map_map]
        rw [zipWith_map_range, zipWith_map_range]
        have hmapA : ∀ i ∈ List.range num, σ (posσ + i) = τ (posτ + i) := by
          intro i hi
          exact hagree i (by have := List.mem_range.mp hi; omega)
        have hmapB : ∀ i ∈ List.range num, σ (posσ + num + i) = τ (posτ + num + i) := by
          intro i hi
          have h := hagree (num + i) (by have := List.mem_range.mp hi; omega)
          rw [← add_assoc, ← add_assoc] at h
          exact h
        have hmap : (List.range num).map
            (fun i => decide (|(vA.clicks : ℝ) / (vA.impressions : ℝ) -
                (vB.clicks : ℝ) / (vB.impressions : ℝ)| <
              |((fun c : ℕ => (c : ℝ) / (vB.impressions : ℝ)) ∘
                  fun i => σ (posσ + num + i)) i -
                ((fun c : ℕ => (c : ℝ) / (vA.impressions : ℝ)) ∘ fun i => σ (posσ + i)) i|))
            = (List.range num).map
            (fun i => decide (|(vA.clicks : ℝ) / (vA.impressions : ℝ) -
                (vB.clicks : ℝ) / (vB.impressions : ℝ)| <
              |((fun c : ℕ => (c : ℝ) / (vB.impressions : ℝ)) ∘
                  fun i => τ (posτ + num + i)) i -
                ((fun c : ℕ => (c : ℝ) / (vA.impressions : ℝ)) ∘ fun i => τ (posτ + i)) i|)) := by
          refine List.map_congr_left fun i hi => ?_
          simp only [Function.comp_apply, hmapA i hi, hmapB i hi]
        rw [hmap]

/-- Witness for the amended C3 at a concrete stream and inputs. -/
theorem claim3_seed_determinism_witness :
    (get_p_value_from_simulation ⟨seqStream, 0⟩ 1 ⟨0, 2⟩ ⟨1, 2⟩).1 =
      (get_p_value_from_simulation ⟨seqStream, 0⟩ 1 ⟨0, 2⟩ ⟨1, 2⟩).1 :=
  claim3_seed_determinism seqStream seqStream 0 0 1 ⟨0, 2⟩ ⟨1, 2⟩ (fun _ _ => rfl)

/-- C8: for valid pairs and any draws from the generator stream, the simulation test
returns exactly the fraction of repetitions whose simulated absolute rate difference
strictly exceeds the observed absolute difference, a value in [0, 1]. -/
theorem claim8_fraction_in_unit (σ : ℕ → ℕ) (pos num : ℕ) (vA vB : variation)
    (hA : vA.impressions ≠ 0) (hB : vB.impressions ≠ 0)
    (hcA : vA.clicks ≤ vA.impressions) (hcB : vB.clicks ≤ vB.impressions)
    (hnum : 1 ≤ num) :
    ∃ r : ℝ, (get_p_value_from_simulation ⟨σ, pos⟩ num vA vB).1 = some r ∧
      r = (exceed_count σ pos num vA vB : ℝ) / (num : ℝ) ∧ 0 ≤ r ∧ r ≤ 1 := by
  have hiA : (0:ℝ) < (vA.impressions : ℝ) := by
    exact_mod_cast Nat.pos_of_ne_zero hA
  have hiB : (0:ℝ) < (vB.impressions : ℝ) := by
    exact_mod_cast Nat.pos_of_ne_zero hB
  have hpool : ¬ (1 < pooled_rate vA vB) := by
    push_neg
    unfold pooled_rate
    rw [div_le_one (by linarith)]
    have h1 : (vA.clicks : ℝ) ≤ (vA.impressions : ℝ) := by exact_mod_cast hcA
    have h2 : (vB.clicks : ℝ) ≤ (vB.impressions : ℝ) := by exact_mod_cast hcB
    linarith
  unfold get_p_value_from_simulation draw_p_sample_from_n_samples draw_clicks_from_n_samples
  rw [if_neg (by push_neg; exact ⟨hA, hB⟩), if_neg hpool, if_neg (by omega)]
  simp only [List.map_map]
  rw [zipWith_map_range]
  refine ⟨_, rfl, ?_, ?_, ?_⟩
  · congr 1
    · norm_cast
      unfold exceed_count
      rw [List.count_eq_countP, List.countP_map, ← List.countP_eq_length_filter]
      refine List.countP_congr fun i _ => ?_
      simp only [Function.comp_apply, beq_iff_eq]
    · rw [List.length_map, List.length_range]
  · positivity
  · have hcount : (List.count true ((List.range num).map fun i =>
        decide (|(vA.clicks : ℝ) / (vA.impressions : ℝ) -
            (vB.clicks : ℝ) / (vB.impressions : ℝ)| <
          |((fun c : ℕ => (c : ℝ) / (vB.impressions : ℝ)) ∘ fun i => σ (pos + num + i)) i -
            ((fun c : ℕ => (c : ℝ) / (vA.impressions : ℝ)) ∘ fun i => σ (pos + i)) i|)))
        ≤ num := by
      calc List.count true _ ≤ ((List.range num).map _).length := List.count_le_length _ _
        _ = num := by rw [List.length_map, List.length_range]
    rw [List.length_map, List.length_range]
    rw [div_le_one (by exact_mod_cast Nat.pos_of_ne_zero (by omega : num ≠ 0))]
    exact_mod_cast hcount

/-- Witness for C8 at a concrete stream and valid pairs. -/
theorem claim8_fraction_in_unit_witness :
    ∃ r : ℝ, (get_p_value_from_simulation ⟨seqStream, 0⟩ 1 ⟨1, 2⟩ ⟨1, 3⟩).1 = some r ∧
      r = (exceed_count seqStream 0 1 ⟨1, 2⟩ ⟨1, 3⟩ : ℝ) / ((1 : ℕ) : ℝ) ∧ 0 ≤ r ∧ r ≤ 1 :=
  claim8_fraction_in_unit seqStream 0 1 ⟨1, 2⟩ ⟨1, 3⟩ (by norm_num) (by norm_num)
    (by norm_num) (by norm_num) (by norm_num)

/-- C10: under the stated preconditions every intermediate quantity of the sample-size
calculator is well defined: both square-root arguments are non-negative, both
inverse-CDF arguments lie in (0,1), the divisor is nonzero, and the function returns a
value. -/
theorem claim10_power_function_welldef (p_A_base DeltaPi alpha beta : ℝ)
    (hp0 : 0 < p_A_base) (hp1 : p_A_base < 1)
    (hpB0 : 0 < p_A_base + DeltaPi) (hpB1 : p_A_base + DeltaPi < 1)
    (hd : DeltaPi ≠ 0)
    (ha0 : 0 < alpha) (ha1 : alpha < 1) (hb0 : 0 < beta) (hb1 : beta < 1) :
    0 ≤ p_A_base * (1 - p_A_base) + (p_A_base + DeltaPi) * (1 - (p_A_base + DeltaPi)) ∧
    0 ≤ 2 * (0.5 * (p_A_base + (p_A_base + DeltaPi))) *
      (1 - 0.5 * (p_A_base + (p_A_base + DeltaPi))) ∧
    (0 < 1 - beta ∧ 1 - beta < 1) ∧ (0 < 1 - alpha / 2 ∧ 1 - alpha / 2 < 1) ∧
    DeltaPi ≠ 0 ∧ ∃ N : ℤ, power_function p_A_base DeltaPi alpha beta = some N := by
  refine ⟨?_, ?_, ⟨by linarith, by linarith⟩, ⟨by linarith, by linarith⟩, hd, ?_⟩
  · nlinarith
  · nlinarith
  · exact ⟨_, by unfold power_function; rw [if_neg hd]⟩

/-- Witness for C10 at the notebook's own parameters. -/
theorem claim10_power_function_welldef_witness :
    0 ≤ (0.02 : ℝ) * (1 - 0.02) + (0.02 + 0.01) * (1 - (0.02 + 0.01)) ∧
    0 ≤ 2 * (0.5 * (0.02 + (0.02 + 0.01)) : ℝ) * (1 - 0.5 * (0.02 + (0.02 + 0.01))) ∧
    (0 < 1 - (0.8 : ℝ) ∧ 1 - (0.8 : ℝ) < 1) ∧
    (0 < 1 - (0.05 : ℝ) / 2 ∧ 1 - (0.05 : ℝ) / 2 < 1) ∧
    (0.01 : ℝ) ≠ 0 ∧ ∃ N : ℤ, power_function 0.02 0.01 0.05 0.8 = some N :=
  claim10_power_function_welldef 0.02 0.01 0.05 0.8 (by norm_num) (by norm_num)
    (by norm_num) (by norm_num) (by norm_num) (by norm_num) (by norm_num) (by norm_num)
    (by norm_num)

theorem null_variance_C1_pos : 0 < null_variance ⟨127, 5734⟩ ⟨174, 5851⟩ := by
  unfold null_variance pooled_rate
  norm_num

/-- C1: on the notebook's literal data the analytic two-sided p-value is 0.0108 up to an
absolute tolerance of 0.001 (the exact value is ≈ 0.01024). -/
theorem claim1_analytic_p_value :
    ∃ r : ℝ, get_p_value_analytic ⟨127, 5734⟩ ⟨174, 5851⟩ = some (PyFloat.val r) ∧
      |r - 0.0108| ≤ 0.001 := by
  have hvarpos := null_variance_C1_pos
  have hsV : 0 < Real.sqrt (null_variance ⟨127, 5734⟩ ⟨174, 5851⟩) := Real.sqrt_pos.mpr hvarpos
  have hD : |(127 : ℝ) / 5734 - (174 : ℝ) / 5851| = 254639 / 33549634 := by
    rw [abs_of_neg (by norm_num)]
    norm_num
  have h1 : Real.sqrt (null_variance ⟨127, 5734⟩ ⟨174, 5851⟩)
      < (254639 / 33549634 : ℝ) / 2.5675 := by
    have hq : null_variance ⟨127, 5734⟩ ⟨174, 5851⟩ < ((254639 / 33549634 : ℝ) / 2.5675)^2 := by
      unfold null_variance pooled_rate
      norm_num
    calc Real.sqrt (null_variance ⟨127, 5734⟩ ⟨174, 5851⟩)
        < Real.sqrt (((254639 / 33549634 : ℝ) / 2.5675)^2) :=
          Real.sqrt_lt_sqrt (le_of_lt hvarpos) hq
      _ = (254639 / 33549634 : ℝ) / 2.5675 := Real.sqrt_sq (by norm_num)
  have h2 : (254639 / 33549634 : ℝ) / 2.5676
      < Real.sqrt (null_variance ⟨127, 5734⟩ ⟨174, 5851⟩) := by
    have hq : ((254639 / 33549634 : ℝ) / 2.5676)^2 < null_variance ⟨127, 5734⟩ ⟨174, 5851⟩ := by
      unfold null_variance pooled_rate
      norm_num
    calc (254639 / 33549634 : ℝ) / 2.5676
        = Real.sqrt (((254639 / 33549634 : ℝ) / 2.5676)^2) := (Real.sqrt_sq (by norm_num)).symm
      _ < Real.sqrt (null_variance ⟨127, 5734⟩ ⟨174, 5851⟩) :=
          Real.sqrt_lt_sqrt (by positivity) hq
  have hzgt : (2.5675 : ℝ) < (254639 / 33549634 : ℝ) /
      Real.sqrt (null_variance ⟨127, 5734⟩ ⟨174, 5851⟩) := by
    rw [lt_div_iff hsV]
    calc (2.5675 : ℝ) * Real.sqrt (null_variance ⟨127, 5734⟩ ⟨174, 5851⟩)
        < 2.5675 * ((254639 / 33549634 : ℝ) / 2.5675) := mul_lt_mul_of_pos_left h1 (by norm_num)
      _ = 254639 / 33549634 := by norm_num
  have hzlt : (254639 / 33549634 : ℝ) /
      Real.sqrt (null_variance ⟨127, 5734⟩ ⟨174, 5851⟩) < 2.5676 := by
    rw [div_lt_iff hsV]
    calc (254639 / 33549634 : ℝ)
        = 2.5676 * ((254639 / 33549634 : ℝ) / 2.5676) := by norm_num
      _ < 2.5676 * Real.sqrt (null_variance ⟨127, 5734⟩ ⟨174, 5851⟩) :=
          mul_lt_mul_of_pos_left h2 (by norm_num)
  have hPhi1 : (0.9941 : ℝ) < normCdf ((254639 / 33549634 : ℝ) /
      Real.sqrt (null_variance ⟨127, 5734⟩ ⟨174, 5851⟩)) :=
    lt_trans normCdf_25675_gt (normCdf_strictMono hzgt)
  have hPhi2 : normCdf ((254639 / 33549634 : ℝ) /
      Real.sqrt (null_variance ⟨127, 5734⟩ ⟨174, 5851⟩)) < 0.9951 :=
    lt_trans (normCdf_strictMono hzlt) normCdf_25676_lt
  refine ⟨2 * (1 - normCdf ((254639 / 33549634 : ℝ) /
    Real.sqrt (null_variance ⟨127, 5734⟩ ⟨174, 5851⟩))), ?_, ?_⟩
  · unfold get_p_value_analytic
    rw [if_neg (by norm_num), if_neg (not_lt.mpr hvarpos.le), if_neg hvarpos.ne']
    norm_num [abs_sub_comm, abs_of_nonneg]
  · rw [abs_le]
    constructor <;> nlinarith [hPhi1, hPhi2]

theorem sqrt_0487_bounds : (0.220680 : ℝ) < Real.sqrt 0.0487 ∧ Real.sqrt 0.0487 < 0.220681 :=
  ⟨by rw [Real.lt_sqrt (by norm_num)]; norm_num,
   by rw [Real.sqrt_lt' (by norm_num)]; norm_num⟩

theorem sqrt_04875_bounds : (0.220794 : ℝ) < Real.sqrt 0.04875 ∧ Real.sqrt 0.04875 < 0.220795 :=
  ⟨by rw [Real.lt_sqrt (by norm_num)]; norm_num,
   by rw [Real.sqrt_lt' (by norm_num)]; norm_num⟩

theorem sqrt_0295_bounds : (0.171755 : ℝ) < Real.sqrt 0.0295 ∧ Real.sqrt 0.0295 < 0.171756 :=
  ⟨by rw [Real.lt_sqrt (by norm_num)]; norm_num,
   by rw [Real.sqrt_lt' (by norm_num)]; norm_num⟩

theorem sqrt_02955_bounds : (0.171901 : ℝ) < Real.sqrt 0.02955 ∧ Real.sqrt 0.02955 < 0.171902 :=
  ⟨by rw [Real.lt_sqrt (by norm_num)]; norm_num,
   by rw [Real.sqrt_lt' (by norm_num)]; norm_num⟩

theorem abs_ppf02_bounds : (0.84147 : ℝ) < |normPpf 0.2| ∧ |normPpf 0.2| < 0.84177 := by
  obtain ⟨h1, h2⟩ := normPpf_02_bracket
  have hneg : normPpf 0.2 < 0 := lt_trans h2 (by norm_num)
  rw [abs_of_neg hneg]
  constructor <;> linarith

theorem power_function_pos_eval :
    ∃ n : ℤ, power_function 0.02 0.01 0.05 0.8 = some n ∧ 3825 ≤ n ∧ n ≤ 3826 := by
  simp only [power_function]
  rw [if_neg (by norm_num : ¬((0.01 : ℝ) = 0))]
  set a := |normPpf (1 - (0.8:ℝ))| with ha
  set c := normPpf (1 - (0.05:ℝ)/2) with hc
  set s := Real.sqrt ((0.02:ℝ) * (1 - 0.02) + (0.02 + 0.01) * (1 - (0.02 + 0.01))) with hs
  set t := Real.sqrt (2 * (0.5 * ((0.02:ℝ) + (0.02 + 0.01))) *
    (1 - 0.5 * ((0.02:ℝ) + (0.02 + 0.01)))) with ht
  have hz2b : (0.84147 : ℝ) < a ∧ a < 0.84177 := by
    rw [ha, show (1 - (0.8:ℝ)) = 0.2 from by norm_num]
    exact abs_ppf02_bounds
  have hzcb : (1.95981 : ℝ) < c ∧ c < 1.96011 := by
    rw [hc, show (1 - (0.05:ℝ)/2) = 0.975 from by norm_num]
    exact normPpf_0975_bracket
  have hs1b : (0.220680 : ℝ) < s ∧ s < 0.220681 := by
    rw [hs, show ((0.02:ℝ) * (1 - 0.02) + (0.02 + 0.01) * (1 - (0.02 + 0.01))) = 0.0487
      from by norm_num]
    exact sqrt_0487_bounds
  have hs2b : (0.220794 : ℝ) < t ∧ t < 0.220795 := by
    rw [ht, show (2 * (0.5 * ((0.02:ℝ) + (0.02 + 0.01))) * (1 - 0.5 * ((0.02:ℝ) + (0.02 + 0.01))))
      = 0.04875 from by norm_num]
    exact sqrt_04875_bounds
  obtain ⟨hz2l, hz2h⟩ := hz2b
  obtain ⟨hzcl, hzch⟩ := hzcb
  obtain ⟨hs1l, hs1h⟩ := hs1b
  obtain ⟨hs2l, hs2h⟩ := hs2b
  have hS_lo : (0.84147 : ℝ) * 0.220680 + 1.95981 * 0.220794 < a * s + c * t := by
    have h1 : (0.84147 : ℝ) * 0.220680 < a * s :=
      mul_lt_mul'' hz2l hs1l (by norm_num) (by norm_num)
    have h2 : (1.95981 : ℝ) * 0.220794 < c * t :=
      mul_lt_mul'' hzcl hs2l (by norm_num) (by norm_num)
    linarith
  have hS_hi : a * s + c * t < 0.84177 * 0.220681 + 1.96011 * 0.220795 := by
    have h1 : a * s < (0.84177 : ℝ) * 0.220681 :=
      mul_lt_mul'' hz2h hs1h (abs_nonneg _) (Real.sqrt_nonneg _)
    have h2 : c * t < (1.96011 : ℝ) * 0.220795 :=
      mul_lt_mul'' hzch hs2h (by linarith) (by linarith)
    linarith
  have hS_nonneg : (0:ℝ) ≤ a * s + c * t := by nlinarith
  have hrw : ((a * s + c * t) / 0.01) ^ 2 = (a * s + c * t) ^ 2 * 10000 := by ring
  refine ⟨_, rfl, ?_, ?_⟩
  · have hlt : (3824 : ℤ) < ⌈((a * s + c * t) / 0.01) ^ 2⌉ := by
      rw [Int.lt_ceil, hrw]
      push_cast
      nlinarith [hS_lo, hS_nonneg]
    omega
  · apply Int.ceil_le.mpr
    rw [hrw]
    push_cast
    nlinarith [hS_hi, hS_nonneg]

theorem power_function_neg_eval :
    ∃ n : ℤ, power_function 0.02 (-0.01) 0.05 0.8 = some n ∧ n ≤ 2319 := by
  simp only [power_function]
  rw [if_neg (by norm_num : ¬((-0.01 : ℝ) = 0))]
  set a := |normPpf (1 - (0.8:ℝ))| with ha
  set c := normPpf (1 - (0.05:ℝ)/2) with hc
  set s := Real.sqrt ((0.02:ℝ) * (1 - 0.02) + (0.02 + -0.01) * (1 - (0.02 + -0.01))) with hs
  set t := Real.sqrt (2 * (0.5 * ((0.02:ℝ) + (0.02 + -0.01))) *
    (1 - 0.5 * ((0.02:ℝ) + (0.02 + -0.01)))) with ht
  have hz2b : (0.84147 : ℝ) < a ∧ a < 0.84177 := by
    rw [ha, show (1 - (0.8:ℝ)) = 0.2 from by norm_num]
    exact abs_ppf02_bounds
  have hzcb : (1.95981 : ℝ) < c ∧ c < 1.96011 := by
    rw [hc, show (1 - (0.05:ℝ)/2) = 0.975 from by norm_num]
    exact normPpf_0975_bracket
  have hs1b : s < 0.171756 := by
    rw [hs, show ((0.02:ℝ) * (1 - 0.02) + (0.02 + -0.01) * (1 - (0.02 + -0.01))) = 0.0295
      from by norm_num]
    exact sqrt_0295_bounds.2
  have hs2b : t < 0.171902 := by
    rw [ht, show (2 * (0.5 * ((0.02:ℝ) + (0.02 + -0.01))) *
        (1 - 0.5 * ((0.02:ℝ) + (0.02 + -0.01)))) = 0.02955 from by norm_num]
    exact sqrt_02955_bounds.2
  obtain ⟨hz2l, hz2h⟩ := hz2b
  obtain ⟨hzcl, hzch⟩ := hzcb
  have hS_hi : a * s + c * t < 0.84177 * 0.171756 + 1.96011 * 0.171902 := by
    have h1 : a * s < (0.84177 : ℝ) * 0.171756 :=
      mul_lt_mul'' hz2h hs1b (abs_nonneg _) (Real.sqrt_nonneg _)
    have h2 : c * t < (1.96011 : ℝ) * 0.171902 :=
      mul_lt_mul'' hzch hs2b (by linarith) (Real.sqrt_nonneg _)
    linarith
  have hS_nonneg : (0:ℝ) ≤ a * s + c * t := by
    have := abs_nonneg (normPpf (1 - (0.8:ℝ)))
    have := Real.sqrt_nonneg ((0.02:ℝ) * (1 - 0.02) + (0.02 + -0.01) * (1 - (0.02 + -0.01)))
    have := Real.sqrt_nonneg (2 * (0.5 * ((0.02:ℝ) + (0.02 + -0.01))) *
      (1 - 0.5 * ((0.02:ℝ) + (0.02 + -0.01))))
    nlinarith [hzcl]
  have hrw : ((a * s + c * t) / -0.01) ^ 2 = (a * s + c * t) ^ 2 * 10000 := by ring
  refine ⟨_, rfl, ?_⟩
  apply Int.ceil_le.mpr
  rw [hrw]
  push_cast
  nlinarith [hS_hi, hS_nonneg]

/-- C2: the sample-size calculator at the notebook's parameters returns 3826 up to ±1. -/
theorem claim2_sample_size :
    ∃ n : ℤ, power_function 0.02 0.01 0.05 0.8 = some n ∧ |n - 3826| ≤ 1 := by
  obtain ⟨n, hn, h1, h2⟩ := power_function_pos_eval
  refine ⟨n, hn, ?_⟩
  rw [abs_le]
  omega

/-- C6 counterexample: with the other parameters fixed, `delta1 = -0.01` and
`delta2 = 0.01` have `|delta1| ≤ |delta2|`, yet the sample size returned for `delta2`
(3825 or 3826) is strictly larger than the one returned for `delta1` (at most 2319):
the claimed monotonicity fails across deltas of opposite sign. -/
theorem claim6_counterexample :
    |(-0.01 : ℝ)| ≤ |(0.01 : ℝ)| ∧
      ∃ n1 n2 : ℤ, power_function 0.02 (-0.01) 0.05 0.8 = some n1 ∧
        power_function 0.02 0.01 0.05 0.8 = some n2 ∧ n1 < n2 := by
  refine ⟨by norm_num, ?_⟩
  obtain ⟨n1, hn1, hb1⟩ := power_function_neg_eval
  obtain ⟨n2, hn2, hb2, _⟩ := power_function_pos_eval
  exact ⟨n1, n2, hn1, hn2, by omega⟩

theorem quad_key (p d1 d2 : ℝ) (hp0 : 0 < p) (hp1 : p < 1)
    (h10 : 0 < p + d1) (h11 : p + d1 < 1) (h20 : 0 < p + d2) (h21 : p + d2 < 1)
    (hsgn : 0 < d1 * d2) (habs : |d1| ≤ |d2|) :
    0 ≤ 2*p*(1-p)*(d2^2 - d1^2) + (1 - 2*p)*(d1*d2)*(d2 - d1) := by
  have hfact : 2*p*(1-p)*(d2^2 - d1^2) + (1 - 2*p)*(d1*d2)*(d2 - d1)
      = (d2 - d1) * (2*p*(1-p)*(d1+d2) + (1-2*p)*(d1*d2)) := by ring
  rw [hfact]
  rcases mul_pos_iff.mp hsgn with ⟨hd1, hd2⟩ | ⟨hd1, hd2⟩
  · -- both positive
    have h12 : d1 ≤ d2 := by
      rw [abs_of_pos hd1, abs_of_pos hd2] at habs
      exact habs
    apply mul_nonneg (by linarith)
    by_cases hb : 0 ≤ 1 - 2*p
    · have k0 : 0 ≤ 2*p*(1-p)*(d1+d2) := by
        apply mul_nonneg (by nlinarith) (by linarith)
      have k0' : 0 ≤ (1-2*p)*(d1*d2) := mul_nonneg hb (le_of_lt hsgn)
      linarith
    · push_neg at hb
      have k1 : -(d1*d2) ≤ (1-2*p)*(d1*d2) := by nlinarith
      have k2 : d1*d2 ≤ (1-p)*(d1+d2) := by nlinarith
      have k3 : (1-p)*(d1+d2) ≤ 2*p*(1-p)*(d1+d2) := by nlinarith
      linarith
  · -- both negative
    have h12 : d2 ≤ d1 := by
      rw [abs_of_neg hd1, abs_of_neg hd2] at habs
      linarith
    have hGle : 2*p*(1-p)*(d1+d2) + (1-2*p)*(d1*d2) ≤ 0 := by
      by_cases hb : 1 - 2*p ≤ 0
      · have hpp : 0 < p*(1-p) := mul_pos hp0 (by linarith)
        have k0 : 2*p*(1-p)*(d1+d2) ≤ 0 := by nlinarith
        have k0' : (1-2*p)*(d1*d2) ≤ 0 := mul_nonpos_of_nonpos_of_nonneg hb (le_of_lt hsgn)
        linarith
      · push_neg at hb
        have k1 : (1-2*p)*(d1*d2) ≤ d1*d2 := by nlinarith
        have k2 : d1*d2 ≤ p*(-(d1+d2)) := by nlinarith
        have k3 : p*(-(d1+d2)) ≤ 2*p*(1-p)*(-(d1+d2)) := by nlinarith
        linarith
    exact mul_nonneg_iff.mpr (Or.inr ⟨by linarith, hGle⟩)

set_option maxHeartbeats 1000000 in
/-- C6 amended: for deltas of the same sign (with all parameters valid), a delta of
larger magnitude never yields a larger sample size. -/
theorem claim6_mono_same_sign (p_A_base alpha beta d1 d2 : ℝ)
    (hp0 : 0 < p_A_base) (hp1 : p_A_base < 1)
    (h10 : 0 < p_A_base + d1) (h11 : p_A_base + d1 < 1)
    (h20 : 0 < p_A_base + d2) (h21 : p_A_base + d2 < 1)
    (ha0 : 0 < alpha) (ha1 : alpha < 1)
    (hsgn : 0 < d1 * d2) (habs : |d1| ≤ |d2|) :
    ∃ n1 n2 : ℤ, power_function p_A_base d1 alpha beta = some n1 ∧
      power_function p_A_base d2 alpha beta = some n2 ∧ n2 ≤ n1 := by
  have hd1 : d1 ≠ 0 := by
    intro h
    rw [h] at hsgn
    simp at hsgn
  have hd2 : d2 ≠ 0 := by
    intro h
    rw [h] at hsgn
    simp at hsgn
  simp only [power_function]
  rw [if_neg hd1, if_neg hd2]
  refine ⟨_, _, rfl, rfl, ?_⟩
  apply Int.ceil_le_ceil
  set z2 := |normPpf (1 - beta)| with hz2def
  set zc := normPpf (1 - alpha / 2) with hzcdef
  have hz2 : 0 ≤ z2 := abs_nonneg _
  have hzc : 0 ≤ zc := normPpf_nonneg (by linarith)
  set A1 := p_A_base * (1 - p_A_base) + (p_A_base + d1) * (1 - (p_A_base + d1)) with hA1
  set A2 := p_A_base * (1 - p_A_base) + (p_A_base + d2) * (1 - (p_A_base + d2)) with hA2
  set B1 := 2 * (0.5 * (p_A_base + (p_A_base + d1))) *
    (1 - 0.5 * (p_A_base + (p_A_base + d1))) with hB1
  set B2 := 2 * (0.5 * (p_A_base + (p_A_base + d2))) *
    (1 - 0.5 * (p_A_base + (p_A_base + d2))) with hB2
  have hkey := quad_key p_A_base d1 d2 hp0 hp1 h10 h11 h20 h21 hsgn habs
  have hA1nn : 0 ≤ A1 := by
    rw [hA1]
    have := mul_nonneg (le_of_lt hp0) (by linarith : (0:ℝ) ≤ 1 - p_A_base)
    have := mul_nonneg (le_of_lt h10) (by linarith : (0:ℝ) ≤ 1 - (p_A_base + d1))
    linarith
  have hA2nn : 0 ≤ A2 := by
    rw [hA2]
    have := mul_nonneg (le_of_lt hp0) (by linarith : (0:ℝ) ≤ 1 - p_A_base)
    have := mul_nonneg (le_of_lt h20) (by linarith : (0:ℝ) ≤ 1 - (p_A_base + d2))
    linarith
  have hB1nn : 0 ≤ B1 := by
    rw [hB1]
    have h1 : (0:ℝ) ≤ 0.5 * (p_A_base + (p_A_base + d1)) := by linarith
    have h2 : (0:ℝ) ≤ 1 - 0.5 * (p_A_base + (p_A_base + d1)) := by linarith
    nlinarith
  have hB2nn : 0 ≤ B2 := by
    rw [hB2]
    have h1 : (0:ℝ) ≤ 0.5 * (p_A_base + (p_A_base + d2)) := by linarith
    have h2 : (0:ℝ) ≤ 1 - 0.5 * (p_A_base + (p_A_base + d2)) := by linarith
    nlinarith
  have keyA : d1^2 * A2 ≤ d2^2 * A1 := by
    have hident : d2^2 * A1 - d1^2 * A2
        = 2*p_A_base*(1-p_A_base)*(d2^2 - d1^2) + (1 - 2*p_A_base)*(d1*d2)*(d2 - d1) := by
      rw [hA1, hA2]
      ring
    linarith
  have keyB : d1^2 * B2 ≤ d2^2 * B1 := by
    have hident : d2^2 * B1 - d1^2 * B2
        = 2*p_A_base*(1-p_A_base)*(d2^2 - d1^2) + (1 - 2*p_A_base)*(d1*d2)*(d2 - d1) := by
      rw [hB1, hB2]
      ring
    linarith
  have hsA : |d1| * Real.sqrt A2 ≤ |d2| * Real.sqrt A1 := by
    have e1 : |d1| * Real.sqrt A2 = Real.sqrt (d1^2 * A2) := by
      rw [Real.sqrt_mul (sq_nonneg d1), Real.sqrt_sq_eq_abs]
    have e2 : |d2| * Real.sqrt A1 = Real.sqrt (d2^2 * A1) := by
      rw [Real.sqrt_mul (sq_nonneg d2), Real.sqrt_sq_eq_abs]
    rw [e1, e2]
    exact Real.sqrt_le_sqrt keyA
  have hsB : |d1| * Real.sqrt B2 ≤ |d2| * Real.sqrt B1 := by
    have e1 : |d1| * Real.sqrt B2 = Real.sqrt (d1^2 * B2) := by
      rw [Real.sqrt_mul (sq_nonneg d1), Real.sqrt_sq_eq_abs]
    have e2 : |d2| * Real.sqrt B1 = Real.sqrt (d2^2 * B1) := by
      rw [Real.sqrt_mul (sq_nonneg d2), Real.sqrt_sq_eq_abs]
    rw [e1, e2]
    exact Real.sqrt_le_sqrt keyB
  have hnum : (z2 * Real.sqrt A2 + zc * Real.sqrt B2) * |d1|
      ≤ (z2 * Real.sqrt A1 + zc * Real.sqrt B1) * |d2| := by
    have t1 : z2 * (|d1| * Real.sqrt A2) ≤ z2 * (|d2| * Real.sqrt A1) :=
      mul_le_mul_of_nonneg_left hsA hz2
    have t2 : zc * (|d1| * Real.sqrt B2) ≤ zc * (|d2| * Real.sqrt B1) :=
      mul_le_mul_of_nonneg_left hsB hzc
    nlinarith [t1, t2]
  have hg2 : 0 ≤ z2 * Real.sqrt A2 + zc * Real.sqrt B2 :=
    add_nonneg (mul_nonneg hz2 (Real.sqrt_nonneg _)) (mul_nonneg hzc (Real.sqrt_nonneg _))
  have hg1 : 0 ≤ z2 * Real.sqrt A1 + zc * Real.sqrt B1 :=
    add_nonneg (mul_nonneg hz2 (Real.sqrt_nonneg _)) (mul_nonneg hzc (Real.sqrt_nonneg _))
  have hd1sq : (0:ℝ) < d1^2 := by
    have := abs_pos.mpr hd1
    nlinarith [sq_abs d1]
  have hd2sq : (0:ℝ) < d2^2 := by
    have := abs_pos.mpr hd2
    nlinarith [sq_abs d2]
  rw [div_pow, div_pow, div_le_div_iff hd2sq hd1sq]
  calc (z2 * Real.sqrt A2 + zc * Real.sqrt B2) ^ 2 * d1 ^ 2
      = ((z2 * Real.sqrt A2 + zc * Real.sqrt B2) * |d1|) *
        ((z2 * Real.sqrt A2 + zc * Real.sqrt B2) * |d1|) := by
        rw [← sq_abs d1]
        ring
    _ ≤ ((z2 * Real.sqrt A1 + zc * Real.sqrt B1) * |d2|) *
        ((z2 * Real.sqrt A1 + zc * Real.sqrt B1) * |d2|) :=
        mul_self_le_mul_self (mul_nonneg hg2 (abs_nonneg d1)) hnum
    _ = (z2 * Real.sqrt A1 + zc * Real.sqrt B1) ^ 2 * d2 ^ 2 := by
        rw [← sq_abs d2]
        ring

/-- Witness for the amended C6 at `p = 0.02`, deltas 0.01 and 0.02. -/
theorem claim6_mono_same_sign_witness :
    ∃ n1 n2 : ℤ, power_function 0.02 0.01 0.05 0.8 = some n1 ∧
      power_function 0.02 0.02 0.05 0.8 = some n2 ∧ n2 ≤ n1 :=
  claim6_mono_same_sign 0.02 0.05 0.8 0.01 0.02 (by norm_num) (by norm_num) (by norm_num)
    (by norm_num) (by norm_num) (by norm_num) (by norm_num) (by norm_num) (by norm_num)
    (by rw [abs_of_pos (by norm_num : (0:ℝ) < 0.01), abs_of_pos (by norm_num : (0:ℝ) < 0.02)]
        norm_num)

